import Mathlib

/-!
Shallow embedding of the s3safe backup/restore core, translated from
pkg/s3safe.go and pkg/config.go.

Modelling conventions:
* Go strings (paths, object keys, error messages) are `List Char`;
* file contents are `List Nat` (byte values);
* local filesystem paths are `List String` (path segments);
* the object store and the transfer layer are collaborators per spec section 6;
  their capability surface is modelled explicitly where a claim needs it.
-/

namespace S3Safe

/-- Go `strings.TrimSuffix(s, "/")` as applied by `Config.processPaths`
(pkg/config.go lines 141-153) to `c.Path` and `c.Dest`: removes one trailing
slash when the last character is a slash, otherwise leaves the string
unchanged.  The check-last-byte form matches the equivalent manual variant in
the second `NewConfig` (unnamed part_000 lines 104-111). -/
def trimTrailingSlash (s : List Char) : List Char :=
  if s.getLast? = some '/' then s.dropLast else s

/-- Head-side mirror of `trimTrailingSlash`, used to reason on reversed
strings. -/
def trimHeadSlash (s : List Char) : List Char :=
  match s with
  | [] => []
  | a :: t => if a = '/' then t else a :: t

theorem trimTrailingSlash_reverse (l : List Char) :
    trimTrailingSlash l.reverse = (trimHeadSlash l).reverse := by
  cases l with
  | nil => simp [trimTrailingSlash, trimHeadSlash]
  | cons a t =>
    simp only [List.reverse_cons, trimTrailingSlash, trimHeadSlash,
      List.getLast?_concat, List.dropLast_concat, Option.some.injEq]
    by_cases h : a = '/'
    · simp [h]
    · simp [h]

theorem trimHeadSlash_idem (l : List Char) (h : ¬ l.take 2 = ['/', '/']) :
    trimHeadSlash (trimHeadSlash l) = trimHeadSlash l := by
  match l with
  | [] => rfl
  | [a] =>
    by_cases ha : a = '/'
    · simp [trimHeadSlash, ha]
    · simp [trimHeadSlash, ha]
  | a :: b :: t =>
    by_cases ha : a = '/'
    · subst ha
      have hb : ¬ b = '/' := by
        intro hb; exact h (by simp [hb])
      simp [trimHeadSlash, hb]
    · simp [trimHeadSlash, ha]

/-- The restore-side leading-slash normalization applied inside
`NewRestoreManager` (pkg/s3safe.go lines 106-109):

  if config.Path[0] == '/' { config.Path = config.Path[1:] }

The index-0 access has no emptiness guard; on the empty string it is an
out-of-bounds index, which in Go is a runtime panic.  The partiality is made
explicit: `none` is the panic. -/
def restoreNormalizePath (p : List Char) : Option (List Char) :=
  match p with
  | [] => none
  | c :: rest => some (if c = '/' then rest else c :: rest)

/-- The per-invocation configuration fields consulted by restore-manager
construction (pkg/config.go `Config`); only the fields that the modelled
control flow reads are carried. -/
structure ConfigV where
  Region : String
  Bucket : String
  KeyID : String
  Secret : String
  EndPoint : String
  Path : List Char
deriving DecidableEq

/-- Structured configuration errors surfaced by validation
(pkg/config.go `validateRequiredFields` and `validateS3Connection`). -/
inductive ConfigErr where
  | missingRegion
  | missingBucket
  | missingKeyID
  | missingSecret
  | missingEndPoint
  | connectivity
deriving DecidableEq

/-- `Config.validateRequiredFields` (pkg/config.go lines 164-180): each of
region, bucket, key id, secret and endpoint must be non-empty; the source
path is not among the required fields.  (The Go code iterates a map literal,
so which missing field is reported first is unspecified; the checks are
modelled in the literal's order, which does not affect whether an error is
reported.) -/
def validateRequiredFields (c : ConfigV) : Except ConfigErr Unit :=
  if c.Region = "" then .error .missingRegion
  else if c.Bucket = "" then .error .missingBucket
  else if c.KeyID = "" then .error .missingKeyID
  else if c.Secret = "" then .error .missingSecret
  else if c.EndPoint = "" then .error .missingEndPoint
  else .ok ()

/-- `NewRestoreManager` (pkg/s3safe.go lines 95-115): validate the config
(required fields, then the bucket-existence check against the store, here the
flag `connOk`), and on success run the leading-slash normalization on
`config.Path`.  Result `Except.error e` is a structured configuration error
returned to the caller; result `Except.ok none` means the construction reached
`config.Path[0]` on an empty path, i.e. a runtime panic; `Except.ok (some p)`
is successful construction with normalized path `p`. -/
def NewRestoreManagerModel (c : ConfigV) (connOk : Bool) :
    Except ConfigErr (Option (List Char)) :=
  match validateRequiredFields c with
  | .error e => .error e
  | .ok () =>
    if connOk then .ok (restoreNormalizePath c.Path)
    else .error .connectivity

/-- Go `filepath.Base` (as used on forward-slash object keys and relative
keys): empty path gives ".", a path of only slashes gives "/", otherwise
trailing slashes are dropped and the last slash-separated component is
returned. -/
def baseName (p : List Char) : List Char :=
  if p = [] then ['.']
  else
    let q := (p.reverse.dropWhile (fun c => c = '/')).reverse
    if q = [] then ['/']
    else (q.reverse.takeWhile (fun c => c ≠ '/')).reverse

/-- `removePrefix` (pkg/s3safe.go lines 701-709): strips the leading prefix
from a key when the key is at least as long as the prefix and starts with it,
otherwise returns the key unchanged. -/
def removePref (filePath pref : List Char) : List Char :=
  if filePath.length < pref.length then filePath
  else if filePath.take pref.length = pref then filePath.drop pref.length
  else filePath

/-- Go `filepath.Join` restricted to the dot-free components the orchestrator
actually joins: drop the trailing slashes of the left part and the leading
slashes of the right part, and join with a single slash (this is what
`filepath.Clean` produces on such inputs).  Only used to name destination
paths handed to the transfer collaborator. -/
def joinPath (a b : List Char) : List Char :=
  if a = [] then b
  else if b = [] then a
  else (a.reverse.dropWhile (fun c => c = '/')).reverse
    ++ '/' :: b.dropWhile (fun c => c = '/')

/-- One work item, local or remote (pkg/config.go `Item`): object key or
relative path, last-modified time (as an abstract tick count) and the
directory flag. -/
structure Item where
  key : List Char
  lastModified : Nat
  isDir : Bool
deriving DecidableEq

/-- One object of the S3 keyspace as surfaced by the listing collaborator:
key, size in bytes, and modification time.  Modelled from the spec (section
6): the store is an external collaborator whose `listObjects` returns exactly
the keys under the requested prefix. -/
structure S3Object where
  key : List Char
  size : Nat
  lastModified : Nat
deriving DecidableEq

/-- The prefix normalization at the top of `S3Storage.List`
(pkg/s3safe.go lines 376-379): append a trailing slash when the path is
non-empty and not already slash-terminated. -/
def normalizePref (p : List Char) : List Char :=
  if p ≠ [] ∧ p.getLast? ≠ some '/' then p ++ ['/'] else p

/-- The flat (no-delimiter) pass of `S3Storage.List` (pkg/s3safe.go lines
389-437) against a store modelled as a list of objects: the paginated loop
requests pages until the store reports no more and appends each page's
processed `Contents` in order, which amounts to one pass over all objects
whose key starts with the normalized prefix; the object whose key exactly
equals the normalized prefix (the directory-marker object) is skipped, and
every other object is emitted with `isDir = (size == 0 && key ends in '/')`. -/
def listFlat (store : List S3Object) (pref : List Char) : List Item :=
  let p := normalizePref pref
  (store.filter (fun o => p.isPrefixOf o.key ∧ o.key ≠ p)).map
    (fun o => ⟨o.key, o.lastModified, decide (o.size = 0 ∧ o.key.getLast? = some '/')⟩)

/-- Recursive `S3Storage.List` (pkg/s3safe.go lines 372-455) with
`recursive = true`: the flat pass, followed by one recursive listing per item
the flat pass marked as a directory, the recursive results appended after the
flat ones.  The Go recursion is unbounded; `fuel` bounds the modelled depth
(every stated property is at a fuel large enough for the recursion to have
run to completion on the given store). -/
def listRec (store : List S3Object) : Nat → List Char → List Item
  | 0, _ => []
  | fuel + 1, pref =>
    let base := listFlat store pref
    base ++ (base.filter (fun it => it.isDir)).flatMap
      (fun it => listRec store fuel it.key)

/-- A local filesystem: the set of existing directories and the files with
their byte contents, both addressed by absolute segment paths (`[]` is the
root, which always exists in the states we build). -/
structure FS where
  dirs : List (List String)
  files : List (List String × List Nat)
deriving DecidableEq

/-- Content of the file at `p`, if a file exists there. -/
def FS.lookupFile (fs : FS) (p : List String) : Option (List Nat) :=
  (fs.files.find? (fun f => f.1 = p)).map (fun f => f.2)

/-- `os.Stat` existence: a directory or a file lives at `p`. -/
def FS.statExists (fs : FS) (p : List String) : Bool :=
  fs.dirs.contains p || (fs.lookupFile p).isSome

/-- Go `os.MkdirAll(p, mode)`: creates `p` together with every missing
ancestor.  (The Go error branch — some ancestor already exists as a regular
file — is not modelled; no claim exercises it.) -/
def FS.mkdirAll (fs : FS) (p : List String) : FS :=
  ⟨p.inits ++ fs.dirs, fs.files⟩

/-- Go `os.Create(p)`: fails when `p` is an existing directory or when the
parent directory of `p` does not exist (`os.Create` does not create parent
directories); otherwise truncates or creates the file at `p` empty. -/
def FS.createFile (fs : FS) (p : List String) : Option FS :=
  if fs.dirs.contains p then none
  else if fs.dirs.contains p.dropLast then
    some ⟨fs.dirs, (p, []) :: fs.files.filter (fun f => f.1 ≠ p)⟩
  else none

/-- Replace the content of the file at `p` (the write into an already-created
file handle). -/
def FS.writeFile (fs : FS) (p : List String) (b : List Nat) : FS :=
  ⟨fs.dirs, (p, b) :: fs.files.filter (fun f => f.1 ≠ p)⟩

/-- One tar entry: a directory entry (`tar.TypeDir`) or a regular file entry
(`tar.TypeReg`) with its relative path (as segments) and bytes.  Other entry
types never arise from `compressDirectory` and are rejected by
`decompressDirectory`. -/
inductive TarEntry where
  | dir (name : List String)
  | reg (name : List String) (content : List Nat)
deriving DecidableEq

/-- `compressDirectory` (pkg/s3safe.go lines 507-597) viewed at the archive
level: the walk of `sourceDir` visits every entry, skips the output file
itself and every directory (directories produce no tar header), and writes
one regular-file tar entry per remaining file, named by its path relative to
`sourceDir`.  The source directory is given as its walked file list
(relative segment path and bytes, in walk order); `outRel` is the output
file's path relative to `sourceDir` (the generated archive lives inside the
source directory, pkg/s3safe.go line 205). -/
def compressDirectory (srcFiles : List (List String × List Nat))
    (outRel : List String) : List TarEntry :=
  (srcFiles.filter (fun f => f.1 ≠ outRel)).map (fun f => TarEntry.reg f.1 f.2)

/-- `decompressDirectory` (pkg/s3safe.go lines 600-667) at the archive level:
entries are processed strictly in order; a directory entry runs `os.MkdirAll`
on `destDir ++ name` (mode 0755); a regular entry runs `os.Create` on
`destDir ++ name` — failing when the parent directory is missing — and
streams the bytes in.  On any failure the error propagates immediately. -/
def decompressDirectory (destDir : List String) :
    List TarEntry → FS → Except String FS
  | [], fs => .ok fs
  | TarEntry.dir name :: rest, fs =>
    decompressDirectory destDir rest (fs.mkdirAll (destDir ++ name))
  | TarEntry.reg name content :: rest, fs =>
    match fs.createFile (destDir ++ name) with
    | none => .error "could not create file"
    | some fs1 => decompressDirectory destDir rest (fs1.writeFile (destDir ++ name) content)

/-- The two gzip magic bytes, 0x1f 0x8b (spec section 6). -/
def gzipMagic : List Nat := [31, 139]

/-- Modelled from the spec: the gzip writer of the standard library (not part
of this repository) emits a stream whose first two bytes are the gzip magic
number 0x1f 0x8b (spec section 6, "Detection signature: first two bytes
0x1f 0x8b"); the bytes on disk of any file produced by `compressDirectory`
therefore have this shape for some payload. -/
def gzipFileBytes (payload : List Nat) : List Nat := gzipMagic ++ payload

/-- The byte-level core of `isCompressed` (pkg/s3safe.go lines 670-688): the
single `file.Read` of a 512-byte zero buffer errors (io.EOF) on an empty
file, so empty content yields false; otherwise at most 512 bytes are read
into the zeroed buffer and the first two buffer bytes are compared with the
gzip magic (a one-byte file leaves the second buffer byte zero). -/
def isCompressedBytes (content : List Nat) : Bool :=
  if content = [] then false
  else decide ((content ++ [0, 0]).take 2 = gzipMagic)

/-- `isCompressed` (pkg/s3safe.go lines 670-688): false when the path cannot
be opened as a readable file (missing path, or a directory — whose read
fails); otherwise the magic-byte check on the content. -/
def isCompressed (fs : FS) (p : List String) : Bool :=
  match fs.lookupFile p with
  | none => false
  | some content => isCompressedBytes content

deriving instance DecidableEq for Except

/-- Result of one `S3Storage.Download` call: the filesystem afterwards, the
store requests issued (keys fetched), and success or failure. -/
structure DlResult where
  fs : FS
  requests : List (List Char)
  result : Except String Unit
deriving DecidableEq

/-- `S3Storage.Download` (pkg/s3safe.go lines 331-370): create the parent
directory of `dest` if missing; when `force` is false and something already
exists at `dest`, log and return success without touching the store;
otherwise `os.Create` the destination and stream the object into it.
`getObject` is the store collaborator (`none` = transport failure). -/
def S3Download (getObject : List Char → Option (List Nat)) (key : List Char)
    (dest : List String) (force : Bool) (fs : FS) : DlResult :=
  let fs1 := if fs.statExists dest.dropLast then fs else fs.mkdirAll dest.dropLast
  if !force && fs1.statExists dest then ⟨fs1, [], .ok ()⟩
  else
    match fs1.createFile dest with
    | none => ⟨fs1, [], .error "download error"⟩
    | some fs2 =>
      match getObject key with
      | none => ⟨fs2, [key], .error "unable to download"⟩
      | some b => ⟨fs2.writeFile dest b, [key], .ok ()⟩

/-- Transfer-level errors.  The two wrapping constructors model the
`fmt.Errorf("...: %w", err)` wrapping performed per item (the originating
cause is preserved inside); `store` is an abstract cause produced by a
collaborator. -/
inductive Err where
  | store (code : Nat)
  | downloadFailed (key : List Char) (cause : Err)
  | decompressFailed (key : List Char) (cause : Err)
deriving DecidableEq

/-- The transfer collaborators as seen by the per-item orchestrator loops:
upload / download outcome per key, decompression outcome and archive
detection per destination path.  Modelled from the spec (section 6
capability surface); a claim's theorem quantifies over these outcomes. -/
structure Transfer where
  upload : List Char → Except Err Unit
  download : List Char → Except Err Unit
  decompressAt : List Char → Except Err Unit
  isComp : List Char → Bool

/-- The configuration fields the per-item orchestrator loops consult
(pkg/config.go `Config`, restricted to the fields these functions read). -/
structure TransferConfig where
  Path : List Char
  Dest : List Char
  Exclude : List (List Char)
  Decompress : Bool
  IgnoreErrors : Bool

/-- `BackupManager.processFileForUpload` (pkg/s3safe.go lines 187-200): an
item whose base name is in the exclude list is logged and skipped; a
directory item is skipped; otherwise one upload call is issued for the item.
The first component is the trace of upload calls issued (by item key). -/
def processFileForUpload (cfg : TransferConfig) (t : Transfer) (file : Item) :
    List (List Char) × Except Err Unit :=
  if cfg.Exclude.contains (baseName file.key) then ([], .ok ())
  else if file.isDir then ([], .ok ())
  else
    match t.upload file.key with
    | .error e => ([file.key], .error e)
    | .ok () => ([file.key], .ok ())

/-- `BackupManager.uploadMultipleFiles` (pkg/s3safe.go lines 173-185): process
each listed item in order; any error from `processFileForUpload` aborts the
whole backup immediately (there is no ignore-errors branch on backup). -/
def uploadMultipleFiles (cfg : TransferConfig) (t : Transfer) :
    List Item → List (List Char) × Except Err Unit
  | [] => ([], .ok ())
  | f :: rest =>
    match processFileForUpload cfg t f with
    | (tr, .error e) => (tr, .error e)
    | (tr, .ok ()) =>
      let (tr2, r2) := uploadMultipleFiles cfg t rest
      (tr ++ tr2, r2)

/-- `RestoreManager.processFileForDownload` (pkg/s3safe.go lines 259-287): an
item whose base name is in the exclude list is logged and skipped; a
directory item is skipped; otherwise one download call is issued (to
`Dest ++ (key minus the source prefix)`); a download failure is wrapped and
returned; on success, when decompression is requested and the downloaded file
is detected as an archive, it is decompressed, a failure being swallowed when
ignore-errors is set and wrapped otherwise.  The first component is the trace
of download calls issued (by item key). -/
def processFileForDownload (cfg : TransferConfig) (t : Transfer) (file : Item) :
    List (List Char) × Except Err Unit :=
  if cfg.Exclude.contains (baseName file.key) then ([], .ok ())
  else if file.isDir then ([], .ok ())
  else
    let destPath := joinPath cfg.Dest (removePref file.key cfg.Path)
    match t.download file.key with
    | .error e => ([file.key], .error (.downloadFailed file.key e))
    | .ok () =>
      if cfg.Decompress && t.isComp destPath then
        match t.decompressAt destPath with
        | .error e =>
          ([file.key],
            if cfg.IgnoreErrors then .ok ()
            else .error (.decompressFailed file.key e))
        | .ok () => ([file.key], .ok ())
      else ([file.key], .ok ())

/-- `RestoreManager.restoreMultipleFiles` (pkg/s3safe.go lines 239-257), the
per-item loop after listing: process each item in order; on an error from
`processFileForDownload`, when ignore-errors is set the error is logged and
the loop continues with the next item, otherwise the restore returns the
error immediately; reaching the end of the list is success. -/
def restoreMultipleFiles (cfg : TransferConfig) (t : Transfer) :
    List Item → List (List Char) × Except Err Unit
  | [] => ([], .ok ())
  | f :: rest =>
    match processFileForDownload cfg t f with
    | (tr, .error e) =>
      if cfg.IgnoreErrors then
        let (tr2, r2) := restoreMultipleFiles cfg t rest
        (tr ++ tr2, r2)
      else (tr, .error e)
    | (tr, .ok ()) =>
      let (tr2, r2) := restoreMultipleFiles cfg t rest
      (tr ++ tr2, r2)

/-- A local directory tree: named files (with modification time) and named
directories with their entries, entries carried in directory-listing order. -/
inductive FTree where
  | file (name : List Char) (mtime : Nat)
  | dir (name : List Char) (mtime : Nat) (entries : List FTree)

/-- The relative key of a child named `name` below relative key `rel`
(`filepath.Rel(root, fullPath)` of the walker, with forward-slash joining;
at the root the key is the base name itself). -/
def childKey (rel name : List Char) : List Char :=
  if rel = [] then name else rel ++ '/' :: name

mutual

/-- One entry step of `walkDir` (pkg/s3safe.go lines 470-504): every entry
produces an `Item` keyed by its path relative to the walk root; when the
entry is a directory and `recursive` is set, the walker descends into it
immediately after emitting its item, before moving to the next sibling. -/
def walkOne (recursive : Bool) (rel : List Char) : FTree → List Item
  | .file n m => [⟨childKey rel n, m, false⟩]
  | .dir n m es =>
    ⟨childKey rel n, m, true⟩ ::
      (if recursive then walkMany recursive (childKey rel n) es else [])

/-- `walkDir` over the entries of one directory, in listing order. -/
def walkMany (recursive : Bool) (rel : List Char) : List FTree → List Item
  | [] => []
  | e :: es => walkOne recursive rel e ++ walkMany recursive rel es

end

/-- `ListFiles` (pkg/s3safe.go lines 458-467): walk the root directory, whose
entries are given in directory-listing order; the root itself produces no
item. -/
def ListFiles (rootEntries : List FTree) (recursive : Bool) : List Item :=
  walkMany recursive [] rootEntries

/-! ## Claim theorems -/

/-- C5, counterexample: the trailing-slash normalization of `processPaths` is
not idempotent — on "a//" one application yields "a/" and a second
application yields "a". -/
theorem trimTrailingSlash_not_idempotent :
    trimTrailingSlash (trimTrailingSlash ("a//".toList)) ≠
      trimTrailingSlash ("a//".toList) := by decide

/-- C5 (amended): the normalization strips exactly one trailing '/' when the
string ends in '/' and leaves the string unchanged otherwise; applying it
twice agrees with applying it once for every string that does not end in two
consecutive slashes (on strings ending in "//" the second application strips
a further slash). -/
theorem trimTrailingSlash_strip_and_idem (s : List Char) :
    (s.getLast? = some '/' → trimTrailingSlash s = s.dropLast) ∧
    (s.getLast? ≠ some '/' → trimTrailingSlash s = s) ∧
    (¬ s.reverse.take 2 = ['/', '/'] →
      trimTrailingSlash (trimTrailingSlash s) = trimTrailingSlash s) := by
  refine ⟨fun h => by simp [trimTrailingSlash, h],
          fun h => by simp [trimTrailingSlash, h],
          fun h => ?_⟩
  conv_lhs => rw [← List.reverse_reverse s]
  conv_rhs => rw [← List.reverse_reverse s]
  rw [trimTrailingSlash_reverse, trimTrailingSlash_reverse,
    trimHeadSlash_idem _ h]

/-- C5 witness: the amended statement at the concrete input "a/". -/
theorem trimTrailingSlash_strip_and_idem_witness :
    trimTrailingSlash (trimTrailingSlash ("a/".toList)) =
      trimTrailingSlash ("a/".toList) :=
  (trimTrailingSlash_strip_and_idem ("a/".toList)).2.2 (by decide)

/-- C9: the restore-side leading-slash normalization indexes position 0 of
the configured source path with no emptiness guard.  For every non-empty
path the access is in bounds; for the empty path — which passes required-field
validation, since the source path is not a required field — restore-manager
construction reaches the out-of-bounds index (`Except.ok none`, the modelled
runtime panic) instead of returning a structured configuration error. -/
theorem restore_path_index_panic :
    (∀ p : List Char, p ≠ [] → (restoreNormalizePath p).isSome = true) ∧
    (∀ c : ConfigV, validateRequiredFields c = .ok () → c.Path = [] →
      NewRestoreManagerModel c true = .ok none) := by
  constructor
  · intro p hp
    match p with
    | [] => exact absurd rfl hp
    | c :: rest => simp [restoreNormalizePath]
  · intro c hv hp
    simp [NewRestoreManagerModel, hv, hp, restoreNormalizePath]

/-- C9 witness: a concrete configuration with every required field set and an
empty source path passes validation and panics at the index. -/
theorem restore_path_index_panic_witness :
    NewRestoreManagerModel ⟨"r", "b", "k", "s", "e", []⟩ true = .ok none :=
  restore_path_index_panic.2 ⟨"r", "b", "k", "s", "e", []⟩ (by decide) rfl

/-- C1: evaluating the code on a directory containing a single file
sub/b.txt (one byte), compressed and then decompressed into a fresh
destination directory "dest": the archive carries no directory entry for
"sub", so `os.Create` of dest/sub/b.txt fails — the round-trip does not
reproduce the directory's files, contradicting the claim's
subdirectory case. -/
theorem compress_decompress_nested_fails :
    decompressDirectory ["dest"]
      (compressDirectory [(["sub", "b.txt"], [49])] ["data.tar.gz"])
      ⟨[[], ["dest"]], []⟩ = .error "could not create file" := by decide

/-- C2, counterexample: with a store holding the directory-marker object
"p/d/" (size 0) and the object "p/d/x" beneath it, the recursive listing of
prefix "p" returns the key "p/d/x" twice — once from the flat pass and once
from the recursion into "p/d/" — so the returned keys are not distinct. -/
theorem listRec_duplicate_keys :
    ¬ ((listRec [⟨"p/d/".toList, 0, 0⟩, ⟨"p/d/x".toList, 5, 1⟩]
        3 ("p".toList)).map Item.key).Nodup := by decide

/-- C2 (amended): the recursive listing's keys are distinct provided the
store's keys are distinct and no object under the prefix is a
pseudo-directory marker (zero size with a key ending in '/'); in that case
the flat pass marks nothing as a directory, no recursion happens, and the
result is the flat pass itself.  In general an object lying beneath a
directory-marker key is emitted twice. -/
theorem listRec_nodup_of_no_markers (store : List S3Object) (pref : List Char)
    (fuel : Nat) (hnd : (store.map S3Object.key).Nodup)
    (hnm : ∀ o ∈ store, (normalizePref pref).isPrefixOf o.key = true →
      ¬ (o.size = 0 ∧ o.key.getLast? = some '/')) :
    ((listRec store (fuel + 1) pref).map Item.key).Nodup := by
  have hbase : (listFlat store pref).filter (fun it => it.isDir) = [] := by
    rw [List.filter_eq_nil_iff]
    intro it hit
    simp only [listFlat, List.mem_map, List.mem_filter] at hit
    obtain ⟨o, ⟨ho, hcond⟩, rfl⟩ := hit
    have hc := of_decide_eq_true hcond
    simpa using hnm o ho hc.1
  simp only [listRec, hbase, List.flatMap_nil, List.append_nil]
  simp only [listFlat, List.map_map]
  exact hnd.sublist (List.Sublist.map _ (List.filter_sublist _))

/-- C2 witness: a concrete store with distinct keys and no directory markers
under the prefix, on which the recursive listing's keys are distinct. -/
theorem listRec_nodup_of_no_markers_witness :
    ((listRec [⟨"p/a".toList, 3, 0⟩, ⟨"p/b".toList, 0, 1⟩] 1
        ("p".toList)).map Item.key).Nodup :=
  listRec_nodup_of_no_markers _ _ 0 (by decide) (by decide)

/-- C7: the flat pass of remote listing (a) appends exactly one trailing '/'
to a non-empty prefix that is not slash-terminated, (b) never emits an item
whose key equals the slash-terminated prefix (the store's directory-marker
object is suppressed), and (c) emits every other object under the prefix as
an item whose `isDir` is true exactly when the object's size is zero and its
key ends in '/'. -/
theorem listFlat_marker_and_isDir (store : List S3Object) (p : List Char) :
    (p ≠ [] → p.getLast? ≠ some '/' → normalizePref p = p ++ ['/']) ∧
    (∀ it ∈ listFlat store p, it.key ≠ normalizePref p) ∧
    (∀ it ∈ listFlat store p, ∃ o ∈ store,
        it.key = o.key ∧ it.lastModified = o.lastModified ∧
        (it.isDir = true ↔ (o.size = 0 ∧ o.key.getLast? = some '/'))) ∧
    (∀ o ∈ store, (normalizePref p).isPrefixOf o.key = true →
        o.key ≠ normalizePref p →
        (⟨o.key, o.lastModified,
            decide (o.size = 0 ∧ o.key.getLast? = some '/')⟩ : Item)
          ∈ listFlat store p) := by
  refine ⟨fun h1 h2 => by simp [normalizePref, h1, h2], ?_, ?_, ?_⟩
  · intro it hit
    simp only [listFlat, List.mem_map, List.mem_filter] at hit
    obtain ⟨o, ⟨_, hcond⟩, rfl⟩ := hit
    exact (of_decide_eq_true hcond).2
  · intro it hit
    simp only [listFlat, List.mem_map, List.mem_filter] at hit
    obtain ⟨o, ⟨ho, _⟩, rfl⟩ := hit
    exact ⟨o, ho, rfl, rfl, by simp⟩
  · intro o ho hpre hne
    simp only [listFlat, List.mem_map, List.mem_filter]
    exact ⟨o, ⟨ho, decide_eq_true ⟨hpre, hne⟩⟩, rfl⟩

/-- C7 witness: on a one-object store, the prefix "q" is normalized to "q/"
and the object "q/a" is emitted as a non-directory item. -/
theorem listFlat_marker_and_isDir_witness :
    normalizePref ("q".toList) = "q/".toList ∧
    (⟨"q/a".toList, 7, false⟩ : Item)
      ∈ listFlat [⟨"q/a".toList, 4, 7⟩] ("q".toList) := by
  have h := listFlat_marker_and_isDir [⟨"q/a".toList, 4, 7⟩] ("q".toList)
  exact ⟨h.1 (by decide) (by decide),
    h.2.2.2 ⟨"q/a".toList, 4, 7⟩ (by decide) (by decide) (by decide)⟩

/-- The magic-byte comparison of `isCompressed` succeeds exactly when the
first two content bytes are the gzip magic (a file shorter than two bytes can
never match, the read buffer being zero-filled). -/
theorem isCompressedBytes_iff (c : List Nat) :
    isCompressedBytes c = true ↔ c.take 2 = gzipMagic := by
  match c with
  | [] => simp [isCompressedBytes, gzipMagic]
  | [a] => simp [isCompressedBytes, gzipMagic]
  | a :: b :: t => simp [isCompressedBytes, gzipMagic]

/-- C6: `isCompressed` returns true exactly when a readable file lives at the
path and its first two bytes are the gzip magic 0x1f 0x8b; for a path with no
readable file (a missing path, or a directory) it returns false rather than
an error; and it returns true on the bytes of any gzip stream, hence on any
archive produced by `compressDirectory`. -/
theorem isCompressed_spec :
    (∀ (fs : FS) (p : List String),
      isCompressed fs p = true ↔
        ∃ c, fs.lookupFile p = some c ∧ c.take 2 = gzipMagic) ∧
    (∀ (fs : FS) (p : List String),
      fs.lookupFile p = none → isCompressed fs p = false) ∧
    (∀ payload, isCompressedBytes (gzipFileBytes payload) = true) := by
  refine ⟨?_, ?_, ?_⟩
  · intro fs p
    unfold isCompressed
    cases h : fs.lookupFile p with
    | none => simp
    | some c => simp [isCompressedBytes_iff]
  · intro fs p h
    simp [isCompressed, h]
  · intro payload
    simp [gzipFileBytes, gzipMagic, isCompressedBytes]

/-- C6 witness: the specification applied to a one-file filesystem whose file
starts with the gzip magic, and to the empty filesystem at a missing path. -/
theorem isCompressed_spec_witness :
    isCompressed ⟨[[]], [(["a.tar.gz"], [31, 139, 8])]⟩ ["a.tar.gz"] = true ∧
    isCompressed ⟨[[]], []⟩ ["missing"] = false := by
  constructor
  · exact (isCompressed_spec.1 ⟨[[]], [(["a.tar.gz"], [31, 139, 8])]⟩
      ["a.tar.gz"]).mpr ⟨[31, 139, 8], by decide, by decide⟩
  · exact isCompressed_spec.2.1 ⟨[[]], []⟩ ["missing"] (by decide)

/-- C3: when a file already exists at the destination path, `Download` with
force unset returns success, issues no store request and leaves the file's
content unchanged; with force set it overwrites the file with the newly
downloaded content.  (The destination's parent directory is assumed to be an
existing directory and the destination not to be a directory — the situation
the claim describes.) -/
theorem S3Download_skip_and_force
    (getObject : List Char → Option (List Nat)) (key : List Char)
    (dest : List String) (fs : FS) (b₀ : List Nat)
    (hfile : fs.lookupFile dest = some b₀)
    (hpar : fs.dirs.contains dest.dropLast = true)
    (hnotdir : fs.dirs.contains dest = false) :
    ((S3Download getObject key dest false fs).result = .ok () ∧
     (S3Download getObject key dest false fs).requests = [] ∧
     (S3Download getObject key dest false fs).fs.lookupFile dest = some b₀) ∧
    (∀ b, getObject key = some b →
      (S3Download getObject key dest true fs).result = .ok () ∧
      (S3Download getObject key dest true fs).requests = [key] ∧
      (S3Download getObject key dest true fs).fs.lookupFile dest = some b) := by
  have hstatp : fs.statExists dest.dropLast = true := by
    unfold FS.statExists
    rw [hpar]
    rfl
  have hstatd : fs.statExists dest = true := by
    unfold FS.statExists
    rw [hfile]
    simp
  constructor
  · simp [S3Download, hstatp, hstatd, hfile]
  · intro b hb
    have hcreate : fs.createFile dest
        = some ⟨fs.dirs, (dest, []) :: fs.files.filter (fun f => f.1 ≠ dest)⟩ := by
      unfold FS.createFile
      rw [hnotdir, hpar]
      simp
    simp [S3Download, hstatp, hcreate, hb, FS.writeFile, FS.lookupFile,
      List.find?]

/-- C3 witness: on a concrete filesystem holding file d/f with bytes [1, 2],
a force-less download issues no request, and a forced download replaces the
content with the store's bytes [9]. -/
theorem S3Download_skip_and_force_witness :
    ((S3Download (fun k => if k = "k".toList then some [9] else none)
        ("k".toList) ["d", "f"] false ⟨[[], ["d"]], [(["d", "f"], [1, 2])]⟩).requests = []
      ∧ (S3Download (fun k => if k = "k".toList then some [9] else none)
        ("k".toList) ["d", "f"] false
        ⟨[[], ["d"]], [(["d", "f"], [1, 2])]⟩).fs.lookupFile ["d", "f"] = some [1, 2]) ∧
    (S3Download (fun k => if k = "k".toList then some [9] else none)
        ("k".toList) ["d", "f"] true
        ⟨[[], ["d"]], [(["d", "f"], [1, 2])]⟩).fs.lookupFile ["d", "f"] = some [9] := by
  have h := S3Download_skip_and_force
    (fun k => if k = "k".toList then some [9] else none) ("k".toList)
    ["d", "f"] ⟨[[], ["d"]], [(["d", "f"], [1, 2])]⟩ [1, 2]
    (by decide) (by decide) (by decide)
  exact ⟨⟨h.1.2.1, h.1.2.2⟩, (h.2 [9] (by decide)).2.2⟩

theorem restoreMultipleFiles_ok_of_ignore (cfg : TransferConfig) (t : Transfer)
    (h : cfg.IgnoreErrors = true) (files : List Item) :
    (restoreMultipleFiles cfg t files).2 = .ok () ∧
    (restoreMultipleFiles cfg t files).1
      = files.flatMap (fun f => (processFileForDownload cfg t f).1) := by
  induction files with
  | nil => simp [restoreMultipleFiles]
  | cons f rest ih =>
    rcases hpf : processFileForDownload cfg t f with ⟨tr, r⟩
    cases r with
    | ok u =>
      cases u
      simp [restoreMultipleFiles, hpf, ih.1, ih.2]
    | error e =>
      simp [restoreMultipleFiles, hpf, h, ih.1, ih.2]

theorem restoreMultipleFiles_abort (cfg : TransferConfig) (t : Transfer)
    (h : cfg.IgnoreErrors = false) (pre : List Item) :
    ∀ (f : Item) (post : List Item) (e : Err),
      (∀ g ∈ pre, (processFileForDownload cfg t g).2 = .ok ()) →
      (processFileForDownload cfg t f).2 = .error e →
      restoreMultipleFiles cfg t (pre ++ f :: post)
        = ((pre ++ [f]).flatMap (fun g => (processFileForDownload cfg t g).1),
           .error e) := by
  induction pre with
  | nil =>
    intro f post e _ hf
    rcases hpf : processFileForDownload cfg t f with ⟨tr, r⟩
    rw [hpf] at hf
    simp only at hf
    subst hf
    simp [restoreMultipleFiles, hpf, h]
  | cons g pre' ih =>
    intro f post e hpre hf
    have hg := hpre g (by simp)
    rcases hpg : processFileForDownload cfg t g with ⟨trg, rg⟩
    rw [hpg] at hg
    simp only at hg
    subst hg
    have ihr := ih f post e (fun x hx => hpre x (by simp [hx])) hf
    simp [restoreMultipleFiles, hpg, ihr]

theorem uploadMultipleFiles_abort (cfg : TransferConfig) (t : Transfer)
    (pre : List Item) :
    ∀ (f : Item) (post : List Item) (e : Err),
      (∀ g ∈ pre, (processFileForUpload cfg t g).2 = .ok ()) →
      (processFileForUpload cfg t f).2 = .error e →
      uploadMultipleFiles cfg t (pre ++ f :: post)
        = ((pre ++ [f]).flatMap (fun g => (processFileForUpload cfg t g).1),
           .error e) := by
  induction pre with
  | nil =>
    intro f post e _ hf
    rcases hpf : processFileForUpload cfg t f with ⟨tr, r⟩
    rw [hpf] at hf
    simp only at hf
    subst hf
    simp [uploadMultipleFiles, hpf]
  | cons g pre' ih =>
    intro f post e hpre hf
    have hg := hpre g (by simp)
    rcases hpg : processFileForUpload cfg t g with ⟨trg, rg⟩
    rw [hpg] at hg
    simp only at hg
    subst hg
    have ihr := ih f post e (fun x hx => hpre x (by simp [hx])) hf
    simp [uploadMultipleFiles, hpg, ihr]

/-- C4: per-item error policy.  On restore, when ignore-errors is set every
failure is recorded and the loop continues — every item's download calls
appear in the trace and the restore as a whole returns success; when
ignore-errors is not set, the first failing item aborts the restore
immediately with the wrapped error, no later item being processed.  On
backup there is no ignore-errors branch at all: whatever the flag, the first
failing upload aborts the whole backup with its error. -/
theorem restore_ignore_errors_policy (cfg : TransferConfig) (t : Transfer)
    (files : List Item) :
    (cfg.IgnoreErrors = true →
      (restoreMultipleFiles cfg t files).2 = .ok () ∧
      (restoreMultipleFiles cfg t files).1
        = files.flatMap (fun f => (processFileForDownload cfg t f).1)) ∧
    (cfg.IgnoreErrors = false →
      ∀ pre f post e, files = pre ++ f :: post →
        (∀ g ∈ pre, (processFileForDownload cfg t g).2 = .ok ()) →
        (processFileForDownload cfg t f).2 = .error e →
        restoreMultipleFiles cfg t files
          = ((pre ++ [f]).flatMap (fun g => (processFileForDownload cfg t g).1),
             .error e)) ∧
    (∀ pre f post e, files = pre ++ f :: post →
        (∀ g ∈ pre, (processFileForUpload cfg t g).2 = .ok ()) →
        (processFileForUpload cfg t f).2 = .error e →
        uploadMultipleFiles cfg t files
          = ((pre ++ [f]).flatMap (fun g => (processFileForUpload cfg t g).1),
             .error e)) := by
  refine ⟨fun h => restoreMultipleFiles_ok_of_ignore cfg t h files,
          fun h pre f post e hsplit hpre hf => ?_,
          fun pre f post e hsplit hpre hf => ?_⟩
  · rw [hsplit]
    exact restoreMultipleFiles_abort cfg t h pre f post e hpre hf
  · rw [hsplit]
    exact uploadMultipleFiles_abort cfg t pre f post e hpre hf

/-- C4 witness: with an empty exclude list and a transfer layer in which both
the upload and the download of key p/a fail, a one-item restore without
ignore-errors returns the wrapped download error after issuing that single
download, and a one-item backup returns the upload error. -/
theorem restore_ignore_errors_policy_witness :
    restoreMultipleFiles ⟨"p".toList, "d".toList, [], false, false⟩
        ⟨fun _ => .error (.store 0), fun _ => .error (.store 1),
         fun _ => .ok (), fun _ => false⟩ [⟨"p/a".toList, 0, false⟩]
      = (["p/a".toList], .error (.downloadFailed ("p/a".toList) (.store 1))) ∧
    uploadMultipleFiles ⟨"p".toList, "d".toList, [], false, false⟩
        ⟨fun _ => .error (.store 0), fun _ => .error (.store 1),
         fun _ => .ok (), fun _ => false⟩ [⟨"p/a".toList, 0, false⟩]
      = (["p/a".toList], .error (.store 0)) := by
  have h := restore_ignore_errors_policy
    ⟨"p".toList, "d".toList, [], false, false⟩
    ⟨fun _ => .error (.store 0), fun _ => .error (.store 1),
     fun _ => .ok (), fun _ => false⟩ [⟨"p/a".toList, 0, false⟩]
  constructor
  · have h2 := h.2.1 rfl [] ⟨"p/a".toList, 0, false⟩ [] _ rfl
      (fun g hg => absurd hg (List.not_mem_nil g)) rfl
    simpa using h2
  · have h3 := h.2.2 [] ⟨"p/a".toList, 0, false⟩ [] _ rfl
      (fun g hg => absurd hg (List.not_mem_nil g)) rfl
    simpa using h3

theorem processFileForUpload_ok (cfg : TransferConfig) (t : Transfer)
    (f : Item) (h : ∀ k, t.upload k = .ok ()) :
    (processFileForUpload cfg t f).2 = .ok () := by
  simp only [processFileForUpload, h]
  split
  · rfl
  · split
    · rfl
    · rfl

theorem processFileForDownload_ok (cfg : TransferConfig) (t : Transfer)
    (f : Item) (hd : ∀ k, t.download k = .ok ())
    (hc : ∀ k, t.decompressAt k = .ok ()) :
    (processFileForDownload cfg t f).2 = .ok () := by
  simp only [processFileForDownload, hd, hc]
  split
  · rfl
  · split
    · rfl
    · split
      · rfl
      · rfl

theorem uploadMultipleFiles_all_ok (cfg : TransferConfig) (t : Transfer)
    (h : ∀ k, t.upload k = .ok ()) (files : List Item) :
    uploadMultipleFiles cfg t files
      = (files.flatMap (fun f => (processFileForUpload cfg t f).1), .ok ()) := by
  induction files with
  | nil => simp [uploadMultipleFiles]
  | cons f rest ih =>
    rcases hpf : processFileForUpload cfg t f with ⟨tr, r⟩
    have hr := processFileForUpload_ok cfg t f h
    rw [hpf] at hr
    simp only at hr
    subst hr
    simp [uploadMultipleFiles, hpf, ih]

theorem restoreMultipleFiles_all_ok (cfg : TransferConfig) (t : Transfer)
    (hd : ∀ k, t.download k = .ok ()) (hc : ∀ k, t.decompressAt k = .ok ())
    (files : List Item) :
    restoreMultipleFiles cfg t files
      = (files.flatMap (fun f => (processFileForDownload cfg t f).1), .ok ()) := by
  induction files with
  | nil => simp [restoreMultipleFiles]
  | cons f rest ih =>
    rcases hpf : processFileForDownload cfg t f with ⟨tr, r⟩
    have hr := processFileForDownload_ok cfg t f hd hc
    rw [hpf] at hr
    simp only at hr
    subst hr
    simp [restoreMultipleFiles, hpf, ih]

/-- C8: exclusion filtering.  With a transfer layer whose calls succeed, the
loops process every enumerated item in order — the issued calls are exactly
the per-item calls, concatenated over the whole (unfiltered) enumeration — a
backup or restore item whose base name is in the exclude list issues no
upload or download call, and every non-excluded non-directory item issues
exactly its own call. -/
theorem exclusion_no_transfer_calls (cfg : TransferConfig) (t : Transfer)
    (hu : ∀ k, t.upload k = .ok ()) (hd : ∀ k, t.download k = .ok ())
    (hc : ∀ k, t.decompressAt k = .ok ()) (files : List Item) :
    (uploadMultipleFiles cfg t files).1
      = files.flatMap (fun f => (processFileForUpload cfg t f).1) ∧
    (restoreMultipleFiles cfg t files).1
      = files.flatMap (fun f => (processFileForDownload cfg t f).1) ∧
    (∀ f : Item, cfg.Exclude.contains (baseName f.key) = true →
      (processFileForUpload cfg t f).1 = [] ∧
      (processFileForDownload cfg t f).1 = []) ∧
    (∀ f : Item, cfg.Exclude.contains (baseName f.key) = false →
      f.isDir = false →
      (processFileForUpload cfg t f).1 = [f.key] ∧
      (processFileForDownload cfg t f).1 = [f.key]) := by
  refine ⟨?_, ?_, ?_, ?_⟩
  · rw [uploadMultipleFiles_all_ok cfg t hu files]
  · rw [restoreMultipleFiles_all_ok cfg t hd hc files]
  · intro f hex
    have hex' : baseName f.key ∈ cfg.Exclude := by simpa using hex
    refine ⟨?_, ?_⟩
    · simp [processFileForUpload, hex']
    · simp [processFileForDownload, hex']
  · intro f hex hdir
    have hex' : baseName f.key ∉ cfg.Exclude := by simpa using hex
    refine ⟨?_, ?_⟩
    · simp [processFileForUpload, hex', hdir, hu]
    · simp only [processFileForDownload, hd, hc]
      simp only [hdir]
      simp [hex']

/-- C8 witness: with exclude list ["skip"], the two-item enumeration
[skip, a] issues exactly one upload call and one download call, both for
key a. -/
theorem exclusion_no_transfer_calls_witness :
    (uploadMultipleFiles ⟨"p".toList, "d".toList, ["skip".toList], false, false⟩
        ⟨fun _ => .ok (), fun _ => .ok (), fun _ => .ok (), fun _ => false⟩
        [⟨"skip".toList, 0, false⟩, ⟨"a".toList, 0, false⟩]).1 = ["a".toList] ∧
    (restoreMultipleFiles ⟨"p".toList, "d".toList, ["skip".toList], false, false⟩
        ⟨fun _ => .ok (), fun _ => .ok (), fun _ => .ok (), fun _ => false⟩
        [⟨"skip".toList, 0, false⟩, ⟨"a".toList, 0, false⟩]).1 = ["a".toList] := by
  have h := exclusion_no_transfer_calls
    ⟨"p".toList, "d".toList, ["skip".toList], false, false⟩
    ⟨fun _ => .ok (), fun _ => .ok (), fun _ => .ok (), fun _ => false⟩
    (fun _ => rfl) (fun _ => rfl) (fun _ => rfl)
    [⟨"skip".toList, 0, false⟩, ⟨"a".toList, 0, false⟩]
  constructor
  · rw [h.1]
    decide
  · rw [h.2.1]
    decide

/-- C10: exclusion does not prune subtrees.  In a recursive backup, a
top-level directory whose base name is excluded still has its subtree walked
(the walker consults no exclude list), the directory item itself issues no
upload call, the calls issued are exactly those of the items below the
directory followed by those of the remaining entries, and every
non-directory item below the excluded directory whose own base name is not
excluded still has its upload call issued. -/
theorem exclusion_does_not_prune (cfg : TransferConfig) (t : Transfer)
    (hu : ∀ k, t.upload k = .ok ()) (name : List Char) (m : Nat)
    (es rest : List FTree)
    (hex : cfg.Exclude.contains (baseName name) = true) :
    ListFiles (FTree.dir name m es :: rest) true
      = ⟨name, m, true⟩ :: (walkMany true name es ++ ListFiles rest true) ∧
    (processFileForUpload cfg t ⟨name, m, true⟩).1 = [] ∧
    (uploadMultipleFiles cfg t (ListFiles (FTree.dir name m es :: rest) true)).1
      = (walkMany true name es).flatMap
          (fun f => (processFileForUpload cfg t f).1)
        ++ (ListFiles rest true).flatMap
          (fun f => (processFileForUpload cfg t f).1) ∧
    (∀ f ∈ walkMany true name es, f.isDir = false →
      cfg.Exclude.contains (baseName f.key) = false →
      f.key ∈ (uploadMultipleFiles cfg t
        (ListFiles (FTree.dir name m es :: rest) true)).1) := by
  have hex' : baseName name ∈ cfg.Exclude := by simpa using hex
  have hLF : ListFiles (FTree.dir name m es :: rest) true
      = ⟨name, m, true⟩ :: (walkMany true name es ++ ListFiles rest true) := by
    simp [ListFiles, walkMany, walkOne, childKey]
  have hproc : (processFileForUpload cfg t (⟨name, m, true⟩ : Item)).1 = [] := by
    simp [processFileForUpload, hex']
  have htr : (uploadMultipleFiles cfg t
      (ListFiles (FTree.dir name m es :: rest) true)).1
      = (walkMany true name es).flatMap
          (fun f => (processFileForUpload cfg t f).1)
        ++ (ListFiles rest true).flatMap
          (fun f => (processFileForUpload cfg t f).1) := by
    rw [uploadMultipleFiles_all_ok cfg t hu]
    rw [hLF]
    simp [hproc]
  refine ⟨hLF, hproc, htr, ?_⟩
  intro f hf hdir hnex
  have hnex' : baseName f.key ∉ cfg.Exclude := by simpa using hnex
  rw [htr]
  apply List.mem_append_left
  apply List.mem_flatMap.mpr
  exact ⟨f, hf, by simp [processFileForUpload, hnex', hdir, hu]⟩

/-- C10 witness: backing up a tree whose top-level directory skip is excluded
still uploads the file skip/f beneath it. -/
theorem exclusion_does_not_prune_witness :
    ("skip/f".toList) ∈ (uploadMultipleFiles
      ⟨"p".toList, "d".toList, ["skip".toList], false, false⟩
      ⟨fun _ => .ok (), fun _ => .ok (), fun _ => .ok (), fun _ => false⟩
      (ListFiles
        [FTree.dir ("skip".toList) 0 [FTree.file ("f".toList) 0]] true)).1 := by
  have h := exclusion_does_not_prune
    ⟨"p".toList, "d".toList, ["skip".toList], false, false⟩
    ⟨fun _ => .ok (), fun _ => .ok (), fun _ => .ok (), fun _ => false⟩
    (fun _ => rfl) ("skip".toList) 0 [FTree.file ("f".toList) 0] []
    (by decide)
  exact h.2.2.2 ⟨"skip/f".toList, 0, false⟩ (by decide) rfl (by decide)

end S3Safe
